import Mathlib

/-!
Verification development for the macro-indicator dashboard (`main.py`).

The Python source is shallowly embedded: the Replit key-value store becomes an
explicit `DB` state record, pandas DataFrames become association lists of rows,
Python floats become exact rationals (`ℚ`), `None`-able values become `Option`,
and the external FRED provider becomes function parameters (`fetch`,
`fetchName`).  Date strings keep their source representation (`"YYYY-MM"`
strings compared lexicographically by code point, exactly as Python compares
`str`).  Definitions follow the source line by line; spec-level reference
definitions (used only to compare against the code) carry a `spec` prefix.
-/

attribute [local semireducible] Rat.mul Rat.inv Rat.add Rat.sub

/-- Python `abs` on an exact rational. -/
def pyAbs (q : ℚ) : ℚ := if q < 0 then -q else q

/-- Python builtin `min` on two rationals. -/
def pyMin (a b : ℚ) : ℚ := if a ≤ b then a else b

/-- Python builtin `max` on two rationals. -/
def pyMax (a b : ℚ) : ℚ := if a ≤ b then b else a

/-- Python `int()` truncation toward zero of an exact rational. -/
def pyInt (q : ℚ) : ℤ := q.num.tdiv q.den

/-- Lexicographic code-point comparison of character lists, as Python compares
strings. -/
def strLtB : List Char → List Char → Bool
  | [], [] => false
  | [], _ :: _ => true
  | _ :: _, [] => false
  | a :: as, b :: bs =>
    if a.toNat < b.toNat then true
    else if b.toNat < a.toNat then false
    else strLtB as bs

/-- Strict `<` on date strings (Python string comparison). -/
def dateLt (a b : String) : Bool := strLtB a.data b.data

/-- Non-strict `≤` on date strings (Python string comparison). -/
def dateLe (a b : String) : Bool := !(dateLt b a)

/-- Python slice `l[i:]` with a possibly negative start index `i`. -/
def pySliceFrom {α : Type} (l : List α) (i : ℤ) : List α :=
  if i < 0 then l.drop ((l.length + i).toNat) else l.drop i.toNat

/-- Lookup in an association list (a Python dict read `d.get(k)`). -/
def getKey {β : Type} (key : String) : List (String × β) → Option β
  | [] => none
  | (k, w) :: rest => if k = key then some w else getKey key rest

/-- Update of an association list (a Python dict write `d[k] = v`): replaces
the binding in place, or appends a new one. -/
def setKey {β : Type} (key : String) (v : β) : List (String × β) → List (String × β)
  | [] => [(key, v)]
  | (k, w) :: rest => if k = key then (k, v) :: rest else (k, w) :: setKey key v rest

/-- Result of `classify_value`: either a literal color string (grey variants)
or an `rgb(r, g, b)` gradient string, kept structured. -/
inductive PyColor where
  | str (s : String)
  | rgb (r g b : ℤ)
deriving DecidableEq

/-- Embedding of `classify_value` (main.py:54-107).  `prev_value` is optional
as in the source; `direction` is the raw string (any value other than
`"positive"`/`"negative"` falls into the unfavorable branch exactly as in the
source boolean).  The unused `accel_threshold` parameter of the source is
omitted.  Floats are modelled as exact rationals. -/
def classify_value (value : ℚ) (prev_value : Option ℚ) (direction : String)
    (up_threshold : ℚ) : PyColor :=
  match prev_value with
  | none => .str "#6c757d"
  | some pv =>
    if pv = 0 then .str "#6c757d"
    else
      let change := (value - pv) / pyAbs pv
      if pyAbs change < up_threshold then .str "#6c757d"
      else
        let is_good_change := (change > 0 ∧ direction = "positive")
          ∨ (change < 0 ∧ direction = "negative")
        let capped_change := pyMax (-(5/100)) (pyMin (5/100) change)
        let intensity := pyAbs capped_change / (5/100)
        let smooth_intensity := intensity * intensity * (3 - 2 * intensity)
        if is_good_change then
          .rgb (pyInt (144 + (34 - 144) * smooth_intensity))
            (pyInt (238 + (139 - 238) * smooth_intensity))
            (pyInt (144 + (34 - 144) * smooth_intensity))
        else
          .rgb (pyInt (200 + (180 - 200) * smooth_intensity))
            (pyInt (200 + (30 - 200) * smooth_intensity))
            (pyInt (200 + (30 - 200) * smooth_intensity))

/-- Monthly observation: a `"YYYY-MM"` date string and a value. -/
structure Obs where
  date : String
  value : ℚ
deriving DecidableEq

/-- Stored record for one series (`db["series_<id>"]` in the source): id,
display name, observations, and direction flag (a raw string, normally
`"positive"` or `"negative"`). -/
structure SeriesEntry where
  id : String
  name : String
  data : List Obs
  direction : String
deriving DecidableEq

/-- The Replit key-value store, restricted to the keys the engine uses:
`series_<id>` records (an association list keyed by series id),
`series_list`, `settings_months_back` and `user_weights`; `none` models an
absent key. -/
structure DB where
  series : List (String × SeriesEntry)
  series_list : Option (List String)
  settings_months_back : Option ℤ
  user_weights : Option (List (String × ℚ))
deriving DecidableEq

/-- Embedding of `get_months_back` (main.py:21-23). -/
def get_months_back (db : DB) : ℤ := db.settings_months_back.getD 60

/-- Embedding of `set_months_back` (main.py:25-34).  The argument models the
result of Python `int(value)`: `some n` when the conversion succeeds, `none`
when it raises (which the source catches, returning `False`). -/
def set_months_back (db : DB) (value : Option ℤ) : Bool × DB :=
  match value with
  | some v =>
    (true, { db with settings_months_back := some (if v < 1 then 1 else v) })
  | none => (false, db)

/-- Embedding of `store_series_data` (main.py:159-195).  `fetchName` models
`get_series_name` (external metadata lookup, already including its
fall-back-to-id behavior); `df` is `none` for a `None` DataFrame. -/
def store_series_data (fetchName : String → String) (db : DB) (series_id : String)
    (df : Option (List Obs)) (direction : String) : Bool × DB :=
  match df with
  | none => (false, db)
  | some records =>
    let name := fetchName series_id
    let existing_direction :=
      match getKey series_id db.series with
      | some e => e.direction
      | none => direction
    let db1 := { db with
      series := setKey series_id
        ⟨series_id, name, records, existing_direction⟩ db.series }
    let db2 :=
      match db1.series_list with
      | some s_list =>
        if series_id ∈ s_list then db1
        else { db1 with series_list := some (s_list ++ [series_id]) }
      | none => { db1 with series_list := some [series_id] }
    (true, db2)

/-- Embedding of `update_series_direction` (main.py:197-212). -/
def update_series_direction (db : DB) (series_id direction : String) : Bool × DB :=
  match getKey series_id db.series with
  | some entry =>
    (true, { db with
      series := setKey series_id { entry with direction := direction } db.series })
  | none => (false, db)

/-- Embedding of `refresh_series_data` (main.py:214-256).  `fetch` models
`fetch_series_monthly`: `none` for a provider error (the source catches the
exception and returns `None`), otherwise the processed monthly records. -/
def refresh_series_data (fetch : String → Option (List Obs))
    (fetchName : String → String) (db : DB) (series_id : String) : Bool × DB :=
  match fetch series_id with
  | none => (false, db)
  | some df =>
    if df = [] then (false, db)
    else
      let current_direction :=
        match getKey series_id db.series with
        | some entry => entry.direction
        | none => "positive"
      store_series_data fetchName db series_id (some df) current_direction

/-- Loop body of `refresh_all_series`: refresh each listed series in turn,
counting successes (main.py:268-271). -/
def refresh_list (fetch : String → Option (List Obs)) (fetchName : String → String) :
    DB → List String → ℕ × DB
  | db, [] => (0, db)
  | db, sid :: rest =>
    let r := refresh_series_data fetch fetchName db sid
    let s := refresh_list fetch fetchName r.2 rest
    (if r.1 then s.1 + 1 else s.1, s.2)

/-- Embedding of `refresh_all_series` (main.py:258-277): refreshes every
tracked series and returns `True` unconditionally. -/
def refresh_all_series (fetch : String → Option (List Obs))
    (fetchName : String → String) (db : DB) : Bool × DB :=
  match db.series_list with
  | some s_list => (true, (refresh_list fetch fetchName db s_list).2)
  | none => (true, db)

/-- Stable ascending sort of observations by date string, as
`sorted(data, key=lambda x: x["date"])` in the source. -/
def sortObs (l : List Obs) : List Obs :=
  List.insertionSort (fun a b => dateLe a.date b.date = true) l

/-- Classification loop of `get_monthly_classifications` (main.py:310-321):
walks the window carrying the previous value; the first record (no previous
value yet) is the literal string `"grey"`. -/
def classifyWalk (direction : String) : Option ℚ → List Obs → List (String × PyColor)
  | _, [] => []
  | prev, r :: rest =>
    let c := match prev with
      | some p => classify_value r.value (some p) direction (1/10000)
      | none => PyColor.str "grey"
    (r.date, c) :: classifyWalk direction (some r.value) rest

/-- Window taken by `get_monthly_classifications`: the Python slice
`data[-months_back:]` of the date-sorted records. -/
def classifWindow (db : DB) (entry : SeriesEntry) : List Obs :=
  pySliceFrom (sortObs entry.data) (-(get_months_back db))

/-- Embedding of `get_monthly_classifications` (main.py:294-321). -/
def get_monthly_classifications (db : DB) (series_id : String) :
    List (String × PyColor) :=
  match getKey series_id db.series with
  | none => []
  | some entry => classifyWalk entry.direction none (classifWindow db entry)

/-- Embedding of `get_indicator_df` (main.py:326-336): all stored
observations, sorted ascending by date. -/
def get_indicator_df (db : DB) (series_id : String) : List Obs :=
  match getKey series_id db.series with
  | none => []
  | some entry => sortObs entry.data

/-- Embedding of `load_weights` (main.py:338-342). -/
def load_weights (db : DB) : List (String × ℚ) := db.user_weights.getD []

/-- Embedding of `save_weights` (main.py:344-348). -/
def save_weights (db : DB) (new_weights : List (String × ℚ)) : DB :=
  { db with user_weights := some new_weights }

/-- Direction stored for a series, defaulting to `"positive"` when absent, as
read inside `get_composite_df` (main.py:366-368). -/
def seriesDirection (db : DB) (sid : String) : String :=
  match getKey sid db.series with
  | some e => e.direction
  | none => "positive"

/-- Direction adjustment of `get_composite_df` (main.py:370-386): rebases the
value list of one series on its first value, inverting for negative
direction. -/
def adjustValues (direction : String) (vals : List ℚ) : List ℚ :=
  match vals with
  | [] => []
  | first_val :: _ =>
    if direction = "negative" then
      if first_val ≠ 0 then
        vals.map (fun v => (v - first_val) / pyAbs first_val * (-1) + 1)
      else vals.map (fun v => -v)
    else
      if first_val ≠ 0 then
        vals.map (fun v => (v - first_val) / pyAbs first_val + 1)
      else vals

/-- The per-series `[date, adjusted_value]` frame built inside
`get_composite_df` before merging (main.py:361-390). -/
def adjusted_series (db : DB) (sid : String) : List (String × ℚ) :=
  let df := get_indicator_df db sid
  List.zip (df.map Obs.date)
    (adjustValues (seriesDirection db sid) (df.map Obs.value))

/-- A pandas DataFrame as built by the merge loop of `get_composite_df`: a
`date` column plus one optional-valued column per merged series id, row order
preserved. -/
structure Frame where
  cols : List String
  rows : List (String × List (Option ℚ))
deriving DecidableEq

/-- One step of `pd.merge(combined_df, df, on="date", how="outer")` with the
pandas default `sort=False`: existing rows keep their order and gain the new
column (matching on date), and dates appearing only in the new series are
appended afterwards in their order, with `NaN` (`none`) in the old columns. -/
def mergeOuter (f : Frame) (sid : String) (s : List (String × ℚ)) : Frame :=
  { cols := f.cols ++ [sid]
    rows :=
      f.rows.map (fun r => (r.1, r.2 ++ [getKey r.1 s]))
        ++ (s.filter (fun p => (getKey p.1 f.rows).isNone)).map
          (fun p => (p.1, List.replicate f.cols.length none ++ [some p.2])) }

/-- Merge loop of `get_composite_df` (main.py:359-395): fold the weighted
series left to right in dict order, skipping series with no stored data;
`none` is the Python `combined_df is None` initial state. -/
def buildCombined (db : DB) : List (String × ℚ) → Option Frame → Option Frame
  | [], acc => acc
  | (sid, _) :: rest, acc =>
    if get_indicator_df db sid = [] then buildCombined db rest acc
    else
      let df := adjusted_series db sid
      match acc with
      | none =>
        buildCombined db rest
          (some { cols := [sid], rows := df.map (fun p => (p.1, [some p.2])) })
      | some f => buildCombined db rest (some (mergeOuter f sid df))

/-- A missing cell takes the forward-fill carry, a present cell keeps its
value (one cell of pandas `ffill`). -/
def fillCell (x carry : Option ℚ) : Option ℚ :=
  match x with
  | some v => some v
  | none => carry

/-- Pandas `DataFrame.ffill()` in the frame's current row order: each column
carries its last seen value downward. -/
def ffillRows (carry : List (Option ℚ)) :
    List (String × List (Option ℚ)) → List (String × List (Option ℚ))
  | [] => []
  | (d, cs) :: rest =>
    let cs2 := List.zipWith fillCell cs carry
    (d, cs2) :: ffillRows cs2 rest

/-- Weighted row sum of `get_composite_df` (main.py:404-410): iterate the
weight dict, each series contributing `row.get(sid, 0) * w`. -/
def rowTotal (weights : List (String × ℚ)) (cols : List String) (cells : List ℚ) : ℚ :=
  weights.foldl (fun total p => total + (getKey p.1 (cols.zip cells)).getD 0 * p.2) 0

/-- Embedding of `get_composite_df` (main.py:350-419): merge the adjusted
series (outer joins in dict order), forward-fill then zero-fill in that row
order, take weighted row sums, sort by date, and trim to the last
`months_back` rows when longer. -/
def get_composite_df (db : DB) (weights_dict : List (String × ℚ)) : List (String × ℚ) :=
  if weights_dict = [] then []
  else
    match buildCombined db weights_dict none with
    | none => []
    | some f =>
      let filled := ffillRows (List.replicate f.cols.length none) f.rows
      let zeroed := filled.map (fun r => (r.1, r.2.map (fun c => c.getD 0)))
      let withTotal := zeroed.map (fun r => (r.1, rowTotal weights_dict f.cols r.2))
      let sorted :=
        List.insertionSort (fun a b : String × ℚ => dateLe a.1 b.1 = true) withTotal
      let months_back := get_months_back db
      if (sorted.length : ℤ) > months_back then pySliceFrom sorted (-months_back)
      else sorted

/-- Embedding of the weight handling of the `/api/save-weights` endpoint
`api_save_weights` (main.py:1699-1716): divide by the total only when the
total is positive, then persist. -/
def api_save_weights (db : DB) (weights : List (String × ℚ)) : DB :=
  let total := (weights.map Prod.snd).sum
  let weights2 :=
    if total > 0 then weights.map (fun p => (p.1, p.2 / total)) else weights
  save_weights db weights2

/-- Embedding of the save branch of the Dash callback `update_composite`
(main.py:1406-1417): `None` inputs count as 0; a positive sum is normalized,
otherwise every tracked series gets the equal weight `1/len(series_list)`. -/
def update_composite_save (db : DB) (series_list : List String)
    (weight_values : List (Option ℚ)) : DB :=
  let wv := weight_values.map (fun x => x.getD 0)
  let s := wv.sum
  let wv2 :=
    if s > 0 then wv.map (fun x => x / s)
    else series_list.map (fun _ => 1 / (series_list.length : ℚ))
  save_weights db (series_list.zip wv2)

/-- Specification-side adjustment formula for a positive-direction series
(spec section 4.4): `adjusted(t) = (v(t) − v0)/|v0| + 1`, identity when
`v0 = 0`. -/
def specAdjustPos (v0 v : ℚ) : ℚ := if v0 = 0 then v else (v - v0) / |v0| + 1

/-- Specification-side adjustment formula for a negative-direction series
(spec section 4.4): `adjusted(t) = −1·(v(t) − v0)/|v0| + 1`, negation when
`v0 = 0`. -/
def specAdjustNeg (v0 v : ℚ) : ℚ := if v0 = 0 then -v else -1 * ((v - v0) / |v0|) + 1

/-- Most recent value of an ascending `(date, value)` list at or before date
`d` (specification-side forward fill by date order). -/
def lastValueUpTo (s : List (String × ℚ)) (d : String) : Option ℚ :=
  s.foldl (fun acc p => if dateLe p.1 d = true then some p.2 else acc) none

/-- Specification-side composite (spec sections 4.3-4.4, the behavior claim
C1 asserts of the code): the date-ascending union of all non-empty series'
dates; each series column forward-filled by date order with the most recent
prior adjusted value, zero before the series' first observation; then the
weighted sum per date, trimmed to the last `months_back` rows. -/
def specCompositeDf (db : DB) (weights_dict : List (String × ℚ)) : List (String × ℚ) :=
  if weights_dict = [] then []
  else
    let dates :=
      List.insertionSort (fun a b : String => dateLe a b = true)
        ((weights_dict.map (fun p => (get_indicator_df db p.1).map Obs.date)).flatten.dedup)
    let rows := dates.map (fun d =>
      (d, weights_dict.foldl
        (fun total p =>
          total + ((lastValueUpTo (adjusted_series db p.1) d).getD 0) * p.2) 0))
    let months_back := get_months_back db
    if (rows.length : ℤ) > months_back then pySliceFrom rows (-months_back)
    else rows

lemma strLtB_irrefl : ∀ l : List Char, strLtB l l = false := by
  intro l
  induction l with
  | nil => rfl
  | cons a as ih => simp [strLtB, ih]

lemma strLtB_asymm : ∀ a b : List Char, strLtB a b = true → strLtB b a = false := by
  intro a
  induction a with
  | nil =>
    intro b h
    cases b with
    | nil => simp [strLtB] at h
    | cons y ys => simp [strLtB]
  | cons x xs ih =>
    intro b h
    cases b with
    | nil => simp [strLtB] at h
    | cons y ys =>
      simp only [strLtB] at h ⊢
      rcases Nat.lt_trichotomy x.toNat y.toNat with h1 | h1 | h1
      · rw [if_neg (by omega), if_pos h1]
      · rw [if_neg (by omega), if_neg (by omega)] at h ⊢
        exact ih ys h
      · rw [if_neg (by omega), if_pos h1] at h
        exact absurd h (by simp)

lemma strLtB_trans : ∀ a b c : List Char,
    strLtB a b = true → strLtB b c = true → strLtB a c = true := by
  intro a
  induction a with
  | nil =>
    intro b c hab hbc
    cases b with
    | nil => simp [strLtB] at hab
    | cons y ys =>
      cases c with
      | nil => simp [strLtB] at hbc
      | cons z zs => simp [strLtB]
  | cons x xs ih =>
    intro b c hab hbc
    cases b with
    | nil => simp [strLtB] at hab
    | cons y ys =>
      cases c with
      | nil => simp [strLtB] at hbc
      | cons z zs =>
        simp only [strLtB] at hab hbc ⊢
        rcases Nat.lt_trichotomy x.toNat y.toNat with h1 | h1 | h1
        · rcases Nat.lt_trichotomy y.toNat z.toNat with h2 | h2 | h2
          · rw [if_pos (by omega)]
          · rw [if_pos (by omega)]
          · rw [if_neg (by omega), if_pos h2] at hbc
            exact absurd hbc (by simp)
        · rcases Nat.lt_trichotomy y.toNat z.toNat with h2 | h2 | h2
          · rw [if_pos (by omega)]
          · rw [if_neg (by omega), if_neg (by omega)] at hab hbc ⊢
            exact ih ys zs hab hbc
          · rw [if_neg (by omega), if_pos h2] at hbc
            exact absurd hbc (by simp)
        · rw [if_neg (by omega), if_pos h1] at hab
          exact absurd hab (by simp)

lemma char_toNat_inj {a b : Char} (h : a.toNat = b.toNat) : a = b :=
  Char.ext (UInt32.ext h)

lemma strLtB_connex : ∀ a b : List Char,
    strLtB a b = false → strLtB b a = false → a = b := by
  intro a
  induction a with
  | nil =>
    intro b hab _
    cases b with
    | nil => rfl
    | cons y ys => simp [strLtB] at hab
  | cons x xs ih =>
    intro b hab hba
    cases b with
    | nil => simp [strLtB] at hba
    | cons y ys =>
      simp only [strLtB] at hab hba
      rcases Nat.lt_trichotomy x.toNat y.toNat with h1 | h1 | h1
      · rw [if_pos h1] at hab
        exact absurd hab (by simp)
      · rw [if_neg (by omega), if_neg (by omega)] at hab hba
        rw [char_toNat_inj h1, ih ys hab hba]
      · rw [if_pos h1] at hba
        exact absurd hba (by simp)

lemma string_data_inj {a b : String} (h : a.data = b.data) : a = b := by
  cases a
  cases b
  exact congrArg String.mk h

lemma dateLe_total (a b : String) : dateLe a b = true ∨ dateLe b a = true := by
  simp only [dateLe, dateLt, Bool.not_eq_true']
  by_cases h : strLtB b.data a.data = true
  · right
    simpa using strLtB_asymm _ _ h
  · left
    simpa using h

lemma dateLe_trans {a b c : String} (hab : dateLe a b = true) (hbc : dateLe b c = true) :
    dateLe a c = true := by
  simp only [dateLe, dateLt, Bool.not_eq_true'] at hab hbc ⊢
  by_contra hca
  have hca2 : strLtB c.data a.data = true := by simpa using hca
  by_cases h1 : strLtB b.data c.data = true
  · have := strLtB_trans _ _ _ h1 hca2
    simp_all
  · have hbc2 : b.data = c.data := strLtB_connex _ _ (by simpa using h1) hbc
    rw [hbc2] at hab
    simp_all

lemma dateLt_of_le_of_ne {a b : String} (hle : dateLe a b = true) (hne : a ≠ b) :
    dateLt a b = true := by
  simp only [dateLe, dateLt, Bool.not_eq_true'] at hle ⊢
  by_contra h
  have h2 : strLtB a.data b.data = false := by simpa using h
  exact hne (string_data_inj (strLtB_connex _ _ h2 hle))

instance : IsTotal Obs (fun a b => dateLe a.date b.date = true) :=
  ⟨fun a b => dateLe_total a.date b.date⟩

instance : IsTrans Obs (fun a b => dateLe a.date b.date = true) :=
  ⟨fun _ _ _ => dateLe_trans⟩

instance : IsTotal (String × ℚ) (fun a b => dateLe a.1 b.1 = true) :=
  ⟨fun a b => dateLe_total a.1 b.1⟩

instance : IsTrans (String × ℚ) (fun a b => dateLe a.1 b.1 = true) :=
  ⟨fun _ _ _ => dateLe_trans⟩

instance : IsTotal String (fun a b => dateLe a b = true) :=
  ⟨dateLe_total⟩

instance : IsTrans String (fun a b => dateLe a b = true) :=
  ⟨fun _ _ _ => dateLe_trans⟩

lemma getKey_setKey_self {β : Type} (k : String) (v : β) :
    ∀ l : List (String × β), getKey k (setKey k v l) = some v := by
  intro l
  induction l with
  | nil => simp [getKey, setKey]
  | cons p rest ih =>
    by_cases h : p.1 = k
    · simp [getKey, setKey, h]
    · simp [getKey, setKey, h, ih]

lemma getKey_setKey_ne {β : Type} {k k2 : String} (v : β) (hne : k ≠ k2) :
    ∀ l : List (String × β), getKey k2 (setKey k v l) = getKey k2 l := by
  intro l
  induction l with
  | nil => simp [getKey, setKey, hne]
  | cons p rest ih =>
    by_cases h : p.1 = k
    · simp [getKey, setKey, h, hne]
    · simp [getKey, setKey, h, ih]

lemma getKey_eq_none_iff {β : Type} (k : String) :
    ∀ l : List (String × β), getKey k l = none ↔ k ∉ l.map Prod.fst := by
  intro l
  induction l with
  | nil => simp [getKey]
  | cons p rest ih =>
    by_cases h : p.1 = k
    · simp [getKey, h]
    · simp [getKey, h, ih, Ne.symm h]

lemma pySliceFrom_neg {α : Type} (l : List α) (k : ℤ) (hk : 1 ≤ k) :
    pySliceFrom l (-k) = l.drop (l.length - k.toNat) := by
  unfold pySliceFrom
  rw [if_pos (by omega)]
  congr 1
  omega

lemma pyAbs_eq_abs (q : ℚ) : pyAbs q = |q| := by
  unfold pyAbs
  split_ifs with h
  · exact (abs_of_neg h).symm
  · exact (abs_of_nonneg (not_lt.mp h)).symm

lemma adjustValues_not_neg_nz (d : String) (hd : d ≠ "negative") (v0 : ℚ)
    (h0 : v0 ≠ 0) (t : List ℚ) :
    adjustValues d (v0 :: t) = (v0 :: t).map (fun v => (v - v0) / pyAbs v0 + 1) := by
  simp [adjustValues, hd, h0]

lemma adjustValues_not_neg_z (d : String) (hd : d ≠ "negative") (v0 : ℚ)
    (h0 : v0 = 0) (t : List ℚ) :
    adjustValues d (v0 :: t) = v0 :: t := by
  simp [adjustValues, hd, h0]

lemma adjustValues_neg_nz (v0 : ℚ) (h0 : v0 ≠ 0) (t : List ℚ) :
    adjustValues "negative" (v0 :: t)
      = (v0 :: t).map (fun v => (v - v0) / pyAbs v0 * (-1) + 1) := by
  simp [adjustValues, h0]

lemma adjustValues_neg_z (v0 : ℚ) (h0 : v0 = 0) (t : List ℚ) :
    adjustValues "negative" (v0 :: t) = (v0 :: t).map (fun v => -v) := by
  simp [adjustValues, h0]

lemma adjustValues_length (d : String) (vals : List ℚ) :
    (adjustValues d vals).length = vals.length := by
  cases vals with
  | nil => rfl
  | cons v t =>
    by_cases hd : d = "negative"
    · subst hd
      by_cases hv : v = 0
      · rw [adjustValues_neg_z v hv]
        simp
      · rw [adjustValues_neg_nz v hv]
        simp
    · by_cases hv : v = 0
      · rw [adjustValues_not_neg_z d hd v hv]
      · rw [adjustValues_not_neg_nz d hd v hv]
        simp

lemma zip_dates_mapped (f : ℚ → ℚ) (l : List Obs) :
    List.zip (l.map Obs.date) ((l.map Obs.value).map f)
      = l.map (fun x => (x.date, f x.value)) := by
  induction l with
  | nil => rfl
  | cons a t ih => simp only [List.map_cons, List.zip_cons_cons, ih]

lemma zip_dates_values (l : List Obs) :
    List.zip (l.map Obs.date) (l.map Obs.value)
      = l.map (fun x => (x.date, x.value)) := by
  induction l with
  | nil => rfl
  | cons a t ih => simp only [List.map_cons, List.zip_cons_cons, ih]

/-- Example store used by concrete witnesses: two positive-direction series
with interleaved dates (series A observes 2020-01 and 2020-03, series B only
2020-02). -/
def exDB : DB :=
  { series :=
      [("A", ⟨"A", "Series A", [⟨"2020-01", 1⟩, ⟨"2020-03", 3⟩], "positive"⟩),
       ("B", ⟨"B", "Series B", [⟨"2020-02", 2⟩], "positive"⟩)]
    series_list := some ["A", "B"]
    settings_months_back := none
    user_weights := none }

/-- C9: `set_months_back` stores `max(1, int(value))` and returns `True`
whenever the input converts to an integer; on conversion failure it returns
`False` leaving the setting unchanged, and `get_months_back` defaults to 60
when the setting was never stored. -/
theorem c9_set_months_back :
    (∀ (db : DB) (n : ℤ),
      set_months_back db (some n)
        = (true, { db with settings_months_back := some (max 1 n) }))
    ∧ (∀ db : DB, set_months_back db none = (false, db))
    ∧ (∀ (s : List (String × SeriesEntry)) (sl : Option (List String))
        (uw : Option (List (String × ℚ))),
        get_months_back ⟨s, sl, none, uw⟩ = 60) := by
  refine ⟨fun db n => ?_, fun db => rfl, fun s sl uw => rfl⟩
  have h : (if n < 1 then (1 : ℤ) else n) = max 1 n := by
    split_ifs with h1 <;> omega
  simp [set_months_back, h]

/-- C10: `refresh_all_series` returns `True` in every case, including when
individual refreshes fail or no series are tracked, so the refresh button
handler and `/api/refresh-all` never observe a failed batch refresh. -/
theorem c10_refresh_all_returns_true :
    ∀ (fetch : String → Option (List Obs)) (fetchName : String → String) (db : DB),
      (refresh_all_series fetch fetchName db).1 = true := by
  intro fetch fetchName db
  unfold refresh_all_series
  cases db.series_list <;> rfl

/-- C5: `classify_value` is total and never raises: an absent or exactly-zero
previous value yields neutral grey, a change below the threshold yields
neutral grey, and every input yields either the grey string or a well-defined
`rgb` gradient. -/
theorem c5_classify_total :
    ∀ (value : ℚ) (direction : String) (up_threshold : ℚ),
      classify_value value none direction up_threshold = .str "#6c757d"
      ∧ classify_value value (some 0) direction up_threshold = .str "#6c757d"
      ∧ (∀ pv : ℚ, pv ≠ 0 →
          pyAbs ((value - pv) / pyAbs pv) < up_threshold →
          classify_value value (some pv) direction up_threshold = .str "#6c757d")
      ∧ (∀ pv : Option ℚ,
          classify_value value pv direction up_threshold = .str "#6c757d"
          ∨ ∃ r g b : ℤ, classify_value value pv direction up_threshold = .rgb r g b) := by
  intro value direction up_threshold
  refine ⟨rfl, by simp [classify_value], fun pv hpv hlt => ?_, fun pv => ?_⟩
  · simp [classify_value, hpv, hlt]
  · rcases pv with _ | p
    · left
      rfl
    · simp only [classify_value]
      split_ifs
      · left
        rfl
      · left
        rfl
      · right
        exact ⟨_, _, _, rfl⟩
      · right
        exact ⟨_, _, _, rfl⟩

/-- C5 witness: a concrete sub-threshold change resolves to neutral grey. -/
theorem c5_classify_total_witness :
    classify_value (20001/20000) (some 1) "positive" (1/10000) = .str "#6c757d" :=
  (c5_classify_total (20001/20000) "positive" (1/10000)).2.2.1 1 (by norm_num) (by decide)

/-- C3: inside `get_composite_df`, the adjusted series of any series with a
non-empty (date-sorted) history follows the spec formulas: with `v0` the
first value, positive direction gives `(v − v0)/|v0| + 1` (identity when
`v0 = 0`), negative direction gives `−1·(v − v0)/|v0| + 1` (negation when
`v0 = 0`). -/
theorem c3_adjusted_series_formula :
    ∀ (db : DB) (sid : String) (o : Obs) (os : List Obs),
      get_indicator_df db sid = o :: os →
      (seriesDirection db sid = "positive" →
        adjusted_series db sid
          = (o :: os).map (fun x => (x.date, specAdjustPos o.value x.value)))
      ∧ (seriesDirection db sid = "negative" →
        adjusted_series db sid
          = (o :: os).map (fun x => (x.date, specAdjustNeg o.value x.value))) := by
  intro db sid o os hdf
  constructor
  · intro hdir
    unfold adjusted_series
    rw [hdf, hdir]
    by_cases h0 : o.value = 0
    · calc List.zip ((o :: os).map Obs.date)
            (adjustValues "positive" ((o :: os).map Obs.value))
          = (o :: os).map (fun x => (x.date, x.value)) := by
            rw [show (o :: os).map Obs.value = o.value :: os.map Obs.value from rfl,
              adjustValues_not_neg_z "positive" (by decide) o.value h0]
            exact zip_dates_values (o :: os)
        _ = (o :: os).map (fun x => (x.date, specAdjustPos o.value x.value)) := by
            apply List.map_congr_left
            intro x _
            simp [specAdjustPos, h0]
    · calc List.zip ((o :: os).map Obs.date)
            (adjustValues "positive" ((o :: os).map Obs.value))
          = (o :: os).map (fun x => (x.date, (x.value - o.value) / pyAbs o.value + 1)) := by
            rw [show (o :: os).map Obs.value = o.value :: os.map Obs.value from rfl,
              adjustValues_not_neg_nz "positive" (by decide) o.value h0]
            exact zip_dates_mapped _ (o :: os)
        _ = (o :: os).map (fun x => (x.date, specAdjustPos o.value x.value)) := by
            apply List.map_congr_left
            intro x _
            simp only [specAdjustPos, if_neg h0, pyAbs_eq_abs]
  · intro hdir
    unfold adjusted_series
    rw [hdf, hdir]
    by_cases h0 : o.value = 0
    · calc List.zip ((o :: os).map Obs.date)
            (adjustValues "negative" ((o :: os).map Obs.value))
          = (o :: os).map (fun x => (x.date, -x.value)) := by
            rw [show (o :: os).map Obs.value = o.value :: os.map Obs.value from rfl,
              adjustValues_neg_z o.value h0]
            exact zip_dates_mapped _ (o :: os)
        _ = (o :: os).map (fun x => (x.date, specAdjustNeg o.value x.value)) := by
            apply List.map_congr_left
            intro x _
            simp [specAdjustNeg, h0]
    · calc List.zip ((o :: os).map Obs.date)
            (adjustValues "negative" ((o :: os).map Obs.value))
          = (o :: os).map
              (fun x => (x.date, (x.value - o.value) / pyAbs o.value * (-1) + 1)) := by
            rw [show (o :: os).map Obs.value = o.value :: os.map Obs.value from rfl,
              adjustValues_neg_nz o.value h0]
            exact zip_dates_mapped _ (o :: os)
        _ = (o :: os).map (fun x => (x.date, specAdjustNeg o.value x.value)) := by
            apply List.map_congr_left
            intro x _
            simp only [specAdjustNeg, if_neg h0, pyAbs_eq_abs]
            ring_nf

/-- C3 witness: the adjusted series of example series A (positive direction,
first value 1) is the identity rebasing `(v − 1)/1 + 1 = v`. -/
theorem c3_adjusted_series_formula_witness :
    adjusted_series exDB "A" = [("2020-01", 1), ("2020-03", 3)] := by
  have h := (c3_adjusted_series_formula exDB "A" ⟨"2020-01", 1⟩ [⟨"2020-03", 3⟩]
      (by decide)).1 (by decide)
  rw [h]
  decide

/-- C2 evidence: the `/api/save-weights` endpoint persists a non-empty
all-zero weight map unchanged (its sum is 0, not 1), while the Dash save
handler at the same all-zero input falls back to equal weights summing to 1.
The sum-to-1 persistence invariant therefore fails on the API path. -/
theorem c2_api_save_weights_unnormalized :
    load_weights (api_save_weights exDB [("A", 0), ("B", 0)]) = [("A", 0), ("B", 0)]
    ∧ ((load_weights (api_save_weights exDB [("A", 0), ("B", 0)])).map Prod.snd).sum = 0
    ∧ load_weights (update_composite_save exDB ["A", "B"] [some 0, some 0])
        = [("A", 1/2), ("B", 1/2)]
    ∧ ((load_weights (update_composite_save exDB ["A", "B"] [some 0, some 0])).map
        Prod.snd).sum = 1 := by
  refine ⟨by decide, by decide, by decide, by decide⟩

/-- Concrete store used by the C8 counterexample: the stored display name
differs from the title the provider currently returns. -/
def c8db : DB :=
  { series := [("A", ⟨"A", "Old Name", [⟨"2020-01", 1⟩], "negative"⟩)]
    series_list := some ["A"]
    settings_months_back := none
    user_weights := none }

/-- C8 counterexample: a refresh does not preserve the stored `name` field;
it overwrites it with the freshly fetched provider title. -/
theorem c8_counterexample :
    (getKey "A" c8db.series).map SeriesEntry.name = some "Old Name"
    ∧ (getKey "A" ((refresh_series_data (fun _ => some [⟨"2020-02", 2⟩])
        (fun _ => "Fresh Title") c8db "A").2).series).map SeriesEntry.name
      = some "Fresh Title"
    ∧ ("Fresh Title" : String) ≠ "Old Name" := by
  refine ⟨by decide, by decide, by decide⟩

/-- C8 as amended: a refresh of an existing stored series replaces the
observations, sets `name` to the freshly fetched provider title (which need
not equal the previously stored name), preserves `direction`, and leaves
every other series untouched; a direction update replaces only the
`direction` field, leaving `name` and the observations unchanged. -/
theorem c8_frame_conditions :
    ∀ (fetch : String → Option (List Obs)) (fetchName : String → String)
      (db : DB) (sid : String) (e : SeriesEntry) (df : List Obs),
      getKey sid db.series = some e →
      (fetch sid = some df → df ≠ [] →
        getKey sid ((refresh_series_data fetch fetchName db sid).2).series
          = some ⟨sid, fetchName sid, df, e.direction⟩
        ∧ ∀ other : String, other ≠ sid →
            getKey other ((refresh_series_data fetch fetchName db sid).2).series
              = getKey other db.series)
      ∧ (∀ d : String,
          update_series_direction db sid d
            = (true,
              { db with series := setKey sid { e with direction := d } db.series })
          ∧ getKey sid (update_series_direction db sid d).2.series
              = some { e with direction := d }
          ∧ ∀ other : String, other ≠ sid →
              getKey other (update_series_direction db sid d).2.series
                = getKey other db.series) := by
  intro fetch fetchName db sid e df hentry
  constructor
  · intro hfetch hne
    have hseries :
        ((refresh_series_data fetch fetchName db sid).2).series
          = setKey sid ⟨sid, fetchName sid, df, e.direction⟩ db.series := by
      unfold refresh_series_data
      rw [hfetch]
      simp only [if_neg hne]
      unfold store_series_data
      rw [hentry]
      cases hsl : db.series_list with
      | none => simp [hsl]
      | some l =>
        simp only [hsl]
        split_ifs <;> rfl
    rw [hseries]
    exact ⟨getKey_setKey_self sid _ db.series,
      fun other hother => getKey_setKey_ne _ (Ne.symm hother) db.series⟩
  · intro d
    have hupd : update_series_direction db sid d
        = (true,
          { db with series := setKey sid { e with direction := d } db.series }) := by
      unfold update_series_direction
      rw [hentry]
    refine ⟨hupd, ?_, ?_⟩
    · rw [hupd]
      exact getKey_setKey_self sid _ db.series
    · intro other hother
      rw [hupd]
      exact getKey_setKey_ne _ (Ne.symm hother) db.series

/-- C8 witness: at the concrete counterexample store, a refresh replaces the
observations and name while keeping the stored negative direction. -/
theorem c8_frame_conditions_witness :
    getKey "A" ((refresh_series_data (fun _ => some [⟨"2020-02", 2⟩])
        (fun _ => "Fresh Title") c8db "A").2).series
      = some ⟨"A", "Fresh Title", [⟨"2020-02", 2⟩], "negative"⟩ :=
  ((c8_frame_conditions (fun _ => some [⟨"2020-02", 2⟩]) (fun _ => "Fresh Title")
    c8db "A" ⟨"A", "Old Name", [⟨"2020-01", 1⟩], "negative"⟩ [⟨"2020-02", 2⟩]
    (by decide)).1 rfl (by decide)).1

lemma classifyWalk_cons_some (dir : String) :
    ∀ (l : List Obs) (pv : ℚ),
      classifyWalk dir (some pv) l
        = List.zipWith (fun (x : Obs) (p : ℚ) =>
            (x.date, classify_value x.value (some p) dir (1/10000)))
          l (pv :: l.map Obs.value) := by
  intro l
  induction l with
  | nil => intro pv; rfl
  | cons o t ih =>
    intro pv
    simp only [classifyWalk, List.map_cons, List.zipWith_cons_cons]
    rw [ih o.value]

/-- C4: for a stored series, `get_monthly_classifications` walks exactly the
last `months_back` observations of the date-sorted history (all of them when
fewer exist), that window is date-ascending, the first output is the neutral
grey marker, and every later output classifies the current value against the
value of the immediately preceding observation in sorted order using the
series' direction. -/
theorem c4_monthly_classifications :
    ∀ (db : DB) (sid : String) (entry : SeriesEntry),
      getKey sid db.series = some entry →
      1 ≤ get_months_back db →
      classifWindow db entry
        = (sortObs entry.data).drop
            ((sortObs entry.data).length - (get_months_back db).toNat)
      ∧ List.Pairwise (fun a b : Obs => dateLe a.date b.date = true)
          (classifWindow db entry)
      ∧ get_monthly_classifications db sid
          = (match classifWindow db entry with
            | [] => []
            | o :: t =>
              (o.date, PyColor.str "grey")
                :: List.zipWith (fun (x : Obs) (p : ℚ) =>
                    (x.date, classify_value x.value (some p) entry.direction (1/10000)))
                  t (o.value :: t.map Obs.value)) := by
  intro db sid entry hentry hmb
  refine ⟨?_, ?_, ?_⟩
  · unfold classifWindow
    exact pySliceFrom_neg _ _ hmb
  · have hsorted :
        List.Pairwise (fun a b : Obs => dateLe a.date b.date = true) (sortObs entry.data) :=
      List.sorted_insertionSort _ entry.data
    unfold classifWindow
    rw [pySliceFrom_neg _ _ hmb]
    exact List.Pairwise.sublist (List.drop_sublist _ _) hsorted
  · unfold get_monthly_classifications
    rw [hentry]
    show classifyWalk entry.direction none (classifWindow db entry) = _
    cases hw : classifWindow db entry with
    | nil => rfl
    | cons o t =>
      simp only [classifyWalk]
      rw [classifyWalk_cons_some entry.direction t o.value]

/-- C4 witness: the classifications of example series A are neutral grey for
its first month followed by the strongest green for the +200% move. -/
theorem c4_monthly_classifications_witness :
    get_monthly_classifications exDB "A"
      = [("2020-01", PyColor.str "grey"), ("2020-03", PyColor.rgb 34 139 34)] := by
  have h := (c4_monthly_classifications exDB "A"
      ⟨"A", "Series A", [⟨"2020-01", 1⟩, ⟨"2020-03", 3⟩], "positive"⟩
      (by decide) (by decide)).2.2
  rw [h]
  decide

lemma refresh_fail (fetch : String → Option (List Obs)) (fetchName : String → String)
    (db : DB) (sid : String) (h : fetch sid = none ∨ fetch sid = some []) :
    refresh_series_data fetch fetchName db sid = (false, db) := by
  unfold refresh_series_data
  rcases h with h | h <;> rw [h]
  rfl

lemma refresh_success_entry (fetch : String → Option (List Obs))
    (fetchName : String → String) (db : DB) (sid : String) (df : List Obs)
    (hdf : fetch sid = some df) (hne : df ≠ []) :
    ((refresh_series_data fetch fetchName db sid).2).series
      = setKey sid
          ⟨sid, fetchName sid, df,
            match getKey sid db.series with
            | some e => e.direction
            | none => "positive"⟩ db.series := by
  simp only [refresh_series_data, hdf, if_neg hne, store_series_data]
  cases hg : getKey sid db.series with
  | none =>
    simp only [hg]
    cases hsl : db.series_list with
    | none => simp [hsl]
    | some l =>
      simp only [hsl]
      split_ifs <;> rfl
  | some e =>
    simp only [hg]
    cases hsl : db.series_list with
    | none => simp [hsl]
    | some l =>
      simp only [hsl]
      split_ifs <;> rfl

lemma refresh_list_keeps (fetch : String → Option (List Obs))
    (fetchName : String → String) (sid : String) (df : List Obs)
    (hdf : fetch sid = some df) (hne : df ≠ [])
    (hothers : ∀ s : String, s ≠ sid → fetch s = none) :
    ∀ (l : List String) (db : DB),
      (sid ∈ l ∨ ∃ e : SeriesEntry,
        getKey sid db.series = some e ∧ e.data = df ∧ e.name = fetchName sid) →
      ∃ e : SeriesEntry,
        getKey sid ((refresh_list fetch fetchName db l).2).series = some e
          ∧ e.data = df ∧ e.name = fetchName sid := by
  intro l
  induction l with
  | nil =>
    intro db h
    rcases h with h | h
    · simp at h
    · exact h
  | cons s rest ih =>
    intro db h
    by_cases hs : s = sid
    · subst hs
      have hstep := refresh_success_entry fetch fetchName db s df hdf hne
      simp only [refresh_list]
      apply ih
      right
      rw [hstep]
      exact ⟨_, getKey_setKey_self s _ db.series, rfl, rfl⟩
    · have hfail : refresh_series_data fetch fetchName db s = (false, db) :=
        refresh_fail fetch fetchName db s (Or.inl (hothers s hs))
      simp only [refresh_list, hfail]
      apply ih
      rcases h with h | h
      · rcases List.mem_cons.mp h with h | h
        · exact absurd h.symm hs
        · exact Or.inl h
      · exact Or.inr h

/-- C7: a provider failure (error or empty fetched dataset) makes
`refresh_series_data` report `False` and leave the whole store untouched;
and `refresh_all_series` keeps processing the remaining tracked series, so a
tracked series whose fetch succeeds is stored even when every other fetch
fails. -/
theorem c7_provider_failure_isolated :
    ∀ (fetch : String → Option (List Obs)) (fetchName : String → String)
      (db : DB) (sid : String),
      ((fetch sid = none ∨ fetch sid = some []) →
        refresh_series_data fetch fetchName db sid = (false, db))
      ∧ (∀ (s_list : List String) (df : List Obs),
          db.series_list = some s_list → sid ∈ s_list →
          fetch sid = some df → df ≠ [] →
          (∀ s : String, s ≠ sid → fetch s = none) →
          (refresh_all_series fetch fetchName db).1 = true
          ∧ ∃ e : SeriesEntry,
              getKey sid ((refresh_all_series fetch fetchName db).2).series = some e
              ∧ e.data = df ∧ e.name = fetchName sid) := by
  intro fetch fetchName db sid
  refine ⟨fun h => refresh_fail fetch fetchName db sid h, ?_⟩
  intro s_list df hsl hmem hdf hne hothers
  constructor
  · simp only [refresh_all_series, hsl]
  · simp only [refresh_all_series, hsl]
    exact refresh_list_keeps fetch fetchName sid df hdf hne hothers s_list db
      (Or.inl hmem)

/-- Provider stub for the C7 witness: only series A fetches successfully. -/
def c7fetch : String → Option (List Obs) := fun s =>
  if s = "A" then some [⟨"2020-02", 5⟩] else none

/-- C7 witness: in the example store, with series B failing to fetch, series
A is still refreshed by the batch operation. -/
theorem c7_provider_failure_isolated_witness :
    ∃ e : SeriesEntry,
      getKey "A" ((refresh_all_series c7fetch (fun _ => "Title") exDB).2).series = some e
      ∧ e.data = [⟨"2020-02", 5⟩] ∧ e.name = "Title" :=
  ((c7_provider_failure_isolated c7fetch (fun _ => "Title") exDB "A").2
    ["A", "B"] [⟨"2020-02", 5⟩] rfl (by decide) (by decide) (by decide)
    (fun s hs => if_neg hs)).2

/-- Smoothstep intensity computed by `classify_value` as a function of the
raw change, written out (clamp to ±0.05, normalize by 0.05, smoothstep). -/
def smoothOf (change : ℚ) : ℚ :=
  pyAbs (pyMax (-(5/100)) (pyMin (5/100) change)) / (5/100)
    * (pyAbs (pyMax (-(5/100)) (pyMin (5/100) change)) / (5/100))
    * (3 - 2 * (pyAbs (pyMax (-(5/100)) (pyMin (5/100) change)) / (5/100)))

/-- Favorable result test: the color lies on the green ramp of
`classify_value` (red channel between 34 and 144, disjoint from the red
ramp's 180-200). -/
def isGreenGradient (c : PyColor) : Bool :=
  match c with
  | .rgb r _ _ => decide (r ≤ 144)
  | _ => false

/-- Unfavorable result test: the color lies on the grey-to-red ramp of
`classify_value` (red channel between 180 and 200). -/
def isRedGradient (c : PyColor) : Bool :=
  match c with
  | .rgb r _ _ => decide (180 ≤ r)
  | _ => false

lemma pyInt_eq_floor {q : ℚ} (h : 0 ≤ q) : pyInt q = ⌊q⌋ := by
  rw [Rat.floor_def]
  unfold pyInt
  exact Int.tdiv_eq_ediv (Rat.num_nonneg.mpr h) (by exact_mod_cast Nat.zero_le q.den)

lemma pyInt_le_of_le {q : ℚ} {B : ℤ} (h0 : 0 ≤ q) (h : q ≤ (B : ℚ)) : pyInt q ≤ B := by
  rw [pyInt_eq_floor h0]
  calc ⌊q⌋ ≤ ⌊(B : ℚ)⌋ := Int.floor_le_floor h
    _ = B := Int.floor_intCast B

lemma le_pyInt_of_le {q : ℚ} {B : ℤ} (h0 : 0 ≤ B) (hB : (B : ℚ) ≤ q) : B ≤ pyInt q := by
  have hq : 0 ≤ q := le_trans (by exact_mod_cast h0) hB
  rw [pyInt_eq_floor hq]
  exact Int.le_floor.mpr hB

lemma smoothstep_bounds {i : ℚ} (h0 : 0 ≤ i) (h1 : i ≤ 1) :
    0 ≤ i * i * (3 - 2 * i) ∧ i * i * (3 - 2 * i) ≤ 1 := by
  constructor
  · nlinarith
  · nlinarith [mul_nonneg (sq_nonneg (1 - i)) (by linarith : (0 : ℚ) ≤ 2 * i + 1)]

lemma intensity_bounds (change : ℚ) :
    0 ≤ pyAbs (pyMax (-(5/100)) (pyMin (5/100) change)) / (5/100)
    ∧ pyAbs (pyMax (-(5/100)) (pyMin (5/100) change)) / (5/100) ≤ 1 := by
  have habs1 : 0 ≤ pyAbs (pyMax (-(5/100)) (pyMin (5/100) change)) := by
    unfold pyAbs pyMax pyMin
    split_ifs <;> linarith
  have habs2 : pyAbs (pyMax (-(5/100)) (pyMin (5/100) change)) ≤ 5/100 := by
    unfold pyAbs pyMax pyMin
    split_ifs <;> linarith
  constructor
  · exact div_nonneg habs1 (by norm_num)
  · rw [div_le_one (by norm_num)]
    exact habs2

lemma smoothOf_bounds (change : ℚ) : 0 ≤ smoothOf change ∧ smoothOf change ≤ 1 := by
  unfold smoothOf
  exact smoothstep_bounds (intensity_bounds change).1 (intensity_bounds change).2

lemma green_r_bounds {s : ℚ} (h0 : 0 ≤ s) (h1 : s ≤ 1) :
    34 ≤ pyInt (144 + (34 - 144) * s) ∧ pyInt (144 + (34 - 144) * s) ≤ 144 := by
  have hq1 : ((34 : ℤ) : ℚ) ≤ 144 + (34 - 144) * s := by push_cast; nlinarith
  have hq2 : 144 + (34 - 144) * s ≤ ((144 : ℤ) : ℚ) := by push_cast; nlinarith
  exact ⟨le_pyInt_of_le (by norm_num) hq1,
    pyInt_le_of_le (le_trans (by norm_num) hq1) hq2⟩

lemma red_r_bounds {s : ℚ} (h0 : 0 ≤ s) (h1 : s ≤ 1) :
    180 ≤ pyInt (200 + (180 - 200) * s) ∧ pyInt (200 + (180 - 200) * s) ≤ 200 := by
  have hq1 : ((180 : ℤ) : ℚ) ≤ 200 + (180 - 200) * s := by push_cast; nlinarith
  have hq2 : 200 + (180 - 200) * s ≤ ((200 : ℤ) : ℚ) := by push_cast; nlinarith
  exact ⟨le_pyInt_of_le (by norm_num) hq1,
    pyInt_le_of_le (le_trans (by norm_num) hq1) hq2⟩

lemma classify_branch (v2 v1 : ℚ) (dir : String) (h1 : v1 ≠ 0)
    (h2 : ¬ pyAbs ((v2 - v1) / pyAbs v1) < (1/10000 : ℚ)) :
    classify_value v2 (some v1) dir (1/10000)
      = (if ((v2 - v1) / pyAbs v1 > 0 ∧ dir = "positive")
            ∨ ((v2 - v1) / pyAbs v1 < 0 ∧ dir = "negative") then
          PyColor.rgb
            (pyInt (144 + (34 - 144) * smoothOf ((v2 - v1) / pyAbs v1)))
            (pyInt (238 + (139 - 238) * smoothOf ((v2 - v1) / pyAbs v1)))
            (pyInt (144 + (34 - 144) * smoothOf ((v2 - v1) / pyAbs v1)))
        else
          PyColor.rgb
            (pyInt (200 + (180 - 200) * smoothOf ((v2 - v1) / pyAbs v1)))
            (pyInt (200 + (30 - 200) * smoothOf ((v2 - v1) / pyAbs v1)))
            (pyInt (200 + (30 - 200) * smoothOf ((v2 - v1) / pyAbs v1)))) := by
  simp only [classify_value, if_neg h1, if_neg h2]
  rfl

/-- C6: for a nonzero baseline and a change of magnitude at least the 0.0001
threshold, the positive-direction classification is a green-ramp color
exactly when the negative-direction classification of the same pair is a
red-ramp color, and vice versa. -/
theorem c6_direction_flip :
    ∀ v1 v2 : ℚ, v1 ≠ 0 →
      (1/10000 : ℚ) ≤ pyAbs ((v2 - v1) / pyAbs v1) →
      ((isGreenGradient (classify_value v2 (some v1) "positive" (1/10000)) = true
        ↔ isRedGradient (classify_value v2 (some v1) "negative" (1/10000)) = true)
      ∧ (isRedGradient (classify_value v2 (some v1) "positive" (1/10000)) = true
        ↔ isGreenGradient (classify_value v2 (some v1) "negative" (1/10000)) = true)) := by
  intro v1 v2 h1 hthr
  have h2 : ¬ pyAbs ((v2 - v1) / pyAbs v1) < (1/10000 : ℚ) := not_lt.mpr hthr
  have hsm := smoothOf_bounds ((v2 - v1) / pyAbs v1)
  have hgr := green_r_bounds hsm.1 hsm.2
  have hrr := red_r_bounds hsm.1 hsm.2
  have hGreenT : ∀ g b : ℤ,
      isGreenGradient (PyColor.rgb
        (pyInt (144 + (34 - 144) * smoothOf ((v2 - v1) / pyAbs v1))) g b) = true := by
    intro g b
    simp only [isGreenGradient]
    exact decide_eq_true hgr.2
  have hGreenNotRed : ∀ g b : ℤ,
      isRedGradient (PyColor.rgb
        (pyInt (144 + (34 - 144) * smoothOf ((v2 - v1) / pyAbs v1))) g b) = false := by
    intro g b
    simp only [isRedGradient]
    exact decide_eq_false (by omega)
  have hRedT : ∀ g b : ℤ,
      isRedGradient (PyColor.rgb
        (pyInt (200 + (180 - 200) * smoothOf ((v2 - v1) / pyAbs v1))) g b) = true := by
    intro g b
    simp only [isRedGradient]
    exact decide_eq_true hrr.1
  have hRedNotGreen : ∀ g b : ℤ,
      isGreenGradient (PyColor.rgb
        (pyInt (200 + (180 - 200) * smoothOf ((v2 - v1) / pyAbs v1))) g b) = false := by
    intro g b
    simp only [isGreenGradient]
    exact decide_eq_false (by omega)
  have hc0 : (v2 - v1) / pyAbs v1 ≠ 0 := by
    intro h0
    rw [h0] at hthr
    norm_num [pyAbs] at hthr
  rw [classify_branch v2 v1 "positive" h1 h2, classify_branch v2 v1 "negative" h1 h2]
  rcases lt_trichotomy ((v2 - v1) / pyAbs v1) 0 with hneg | hzero | hpos
  · have hcondPos :
        ¬ (((v2 - v1) / pyAbs v1 > 0 ∧ ("positive" : String) = "positive")
          ∨ ((v2 - v1) / pyAbs v1 < 0 ∧ ("positive" : String) = "negative")) := by
      rintro (⟨hgt, _⟩ | ⟨_, hstr⟩)
      · linarith
      · exact absurd hstr (by decide)
    have hcondNeg :
        (((v2 - v1) / pyAbs v1 > 0 ∧ ("negative" : String) = "positive")
          ∨ ((v2 - v1) / pyAbs v1 < 0 ∧ ("negative" : String) = "negative")) :=
      Or.inr ⟨hneg, rfl⟩
    rw [if_neg hcondPos, if_pos hcondNeg]
    rw [hRedNotGreen, hGreenNotRed, hRedT, hGreenT]
    exact ⟨Iff.rfl, Iff.rfl⟩
  · exact absurd hzero hc0
  · have hcondPos :
        (((v2 - v1) / pyAbs v1 > 0 ∧ ("positive" : String) = "positive")
          ∨ ((v2 - v1) / pyAbs v1 < 0 ∧ ("positive" : String) = "negative")) :=
      Or.inl ⟨hpos, rfl⟩
    have hcondNeg :
        ¬ (((v2 - v1) / pyAbs v1 > 0 ∧ ("negative" : String) = "positive")
          ∨ ((v2 - v1) / pyAbs v1 < 0 ∧ ("negative" : String) = "negative")) := by
      rintro (⟨_, hstr⟩ | ⟨hlt, _⟩)
      · exact absurd hstr (by decide)
      · linarith
    rw [if_pos hcondPos, if_neg hcondNeg]
    rw [hGreenT, hRedNotGreen, hGreenNotRed, hRedT]
    exact ⟨Iff.rfl, Iff.rfl⟩

/-- C6 witness: the pair (1, 2) with +100% change is favorable under positive
direction and unfavorable under negative direction, and the flips agree. -/
theorem c6_direction_flip_witness :
    (isGreenGradient (classify_value 2 (some 1) "positive" (1/10000)) = true
      ↔ isRedGradient (classify_value 2 (some 1) "negative" (1/10000)) = true)
    ∧ (isRedGradient (classify_value 2 (some 1) "positive" (1/10000)) = true
      ↔ isGreenGradient (classify_value 2 (some 1) "negative" (1/10000)) = true) :=
  c6_direction_flip 1 2 (by norm_num) (by decide)

/-- Date column of an optional combined frame (empty when no frame yet). -/
def rowsDates : Option Frame → List String
  | none => []
  | some f => f.rows.map Prod.fst

lemma adjusted_series_map_fst (db : DB) (sid : String) :
    (adjusted_series db sid).map Prod.fst = (get_indicator_df db sid).map Obs.date := by
  unfold adjusted_series
  apply List.map_fst_zip
  rw [List.length_map, adjustValues_length, List.length_map]

lemma adjusted_series_length (db : DB) (sid : String) :
    (adjusted_series db sid).length = (get_indicator_df db sid).length := by
  unfold adjusted_series
  rw [List.length_zip, List.length_map, adjustValues_length, List.length_map, min_self]

lemma mergeOuter_rows_fst (f : Frame) (sid : String) (s : List (String × ℚ)) :
    (mergeOuter f sid s).rows.map Prod.fst
      = f.rows.map Prod.fst
        ++ (s.filter (fun p => (getKey p.1 f.rows).isNone)).map Prod.fst := by
  unfold mergeOuter
  simp only [List.map_append, List.map_map]
  congr 1

lemma mergeOuter_mem_fst (f : Frame) (sid : String) (s : List (String × ℚ)) (d : String) :
    d ∈ (mergeOuter f sid s).rows.map Prod.fst
      ↔ d ∈ f.rows.map Prod.fst ∨ d ∈ s.map Prod.fst := by
  rw [mergeOuter_rows_fst, List.mem_append]
  constructor
  · rintro (h | h)
    · exact Or.inl h
    · right
      rcases List.mem_map.mp h with ⟨p, hp, rfl⟩
      exact List.mem_map.mpr ⟨p, (List.mem_filter.mp hp).1, rfl⟩
  · rintro (h | h)
    · exact Or.inl h
    · by_cases hf : d ∈ f.rows.map Prod.fst
      · exact Or.inl hf
      · right
        rcases List.mem_map.mp h with ⟨p, hp, rfl⟩
        refine List.mem_map.mpr ⟨p, List.mem_filter.mpr ⟨hp, ?_⟩, rfl⟩
        have hnone : getKey p.1 f.rows = none := (getKey_eq_none_iff p.1 f.rows).mpr hf
        rw [hnone]
        rfl

lemma mergeOuter_fst_nodup (f : Frame) (sid : String) (s : List (String × ℚ))
    (hf : (f.rows.map Prod.fst).Nodup) (hs : (s.map Prod.fst).Nodup) :
    ((mergeOuter f sid s).rows.map Prod.fst).Nodup := by
  rw [mergeOuter_rows_fst, List.nodup_append]
  refine ⟨hf, ?_, ?_⟩
  · exact List.Nodup.sublist (List.Sublist.map _ (List.filter_sublist s)) hs
  · intro d hd1 hd2
    rcases List.mem_map.mp hd2 with ⟨p, hp, rfl⟩
    have hnone := (List.mem_filter.mp hp).2
    have hkey : getKey p.1 f.rows = none := by
      rcases h : getKey p.1 f.rows with _ | v
      · rfl
      · rw [h] at hnone
        simp at hnone
    exact absurd hd1 ((getKey_eq_none_iff p.1 f.rows).mp hkey)

lemma mergeOuter_rows_length (f : Frame) (sid : String) (s : List (String × ℚ)) :
    (mergeOuter f sid s).rows.length ≤ f.rows.length + s.length := by
  unfold mergeOuter
  simp only [List.length_append, List.length_map]
  have := List.length_filter_le (fun p => (getKey p.1 f.rows).isNone) s
  omega

lemma buildCombined_mem (db : DB) :
    ∀ (w : List (String × ℚ)) (acc : Option Frame) (d : String),
      d ∈ rowsDates (buildCombined db w acc)
        ↔ d ∈ rowsDates acc
          ∨ ∃ p ∈ w, d ∈ (get_indicator_df db p.1).map Obs.date := by
  intro w
  induction w with
  | nil =>
    intro acc d
    simp [buildCombined]
  | cons q rest ih =>
    intro acc d
    obtain ⟨sid, wt⟩ := q
    by_cases hE : get_indicator_df db sid = []
    · simp only [buildCombined, if_pos hE]
      rw [ih]
      constructor
      · rintro (h | ⟨p, hp, hd⟩)
        · exact Or.inl h
        · exact Or.inr ⟨p, List.mem_cons_of_mem _ hp, hd⟩
      · rintro (h | ⟨p, hp, hd⟩)
        · exact Or.inl h
        · rcases List.mem_cons.mp hp with rfl | hp2
          · rw [hE] at hd
            simp at hd
          · exact Or.inr ⟨p, hp2, hd⟩
    · cases acc with
      | none =>
        simp only [buildCombined, if_neg hE]
        rw [ih]
        have hinit : rowsDates (some
            { cols := [sid],
              rows := (adjusted_series db sid).map (fun p => (p.1, [some p.2])) })
            = (get_indicator_df db sid).map Obs.date := by
          simp only [rowsDates, List.map_map]
          rw [← adjusted_series_map_fst db sid]
          exact List.map_congr_left (fun p _ => rfl)
        rw [hinit]
        constructor
        · rintro (h | ⟨p, hp, hd⟩)
          · exact Or.inr ⟨(sid, wt), List.mem_cons_self _ _, h⟩
          · exact Or.inr ⟨p, List.mem_cons_of_mem _ hp, hd⟩
        · rintro (h | ⟨p, hp, hd⟩)
          · simp [rowsDates] at h
          · rcases List.mem_cons.mp hp with rfl | hp2
            · exact Or.inl hd
            · exact Or.inr ⟨p, hp2, hd⟩
      | some fr =>
        simp only [buildCombined, if_neg hE]
        rw [ih]
        have hm : d ∈ rowsDates (some (mergeOuter fr sid (adjusted_series db sid)))
            ↔ d ∈ rowsDates (some fr) ∨ d ∈ (get_indicator_df db sid).map Obs.date := by
          simp only [rowsDates]
          rw [mergeOuter_mem_fst, adjusted_series_map_fst]
        rw [hm]
        constructor
        · rintro ((h | h) | ⟨p, hp, hd⟩)
          · exact Or.inl h
          · exact Or.inr ⟨(sid, wt), List.mem_cons_self _ _, h⟩
          · exact Or.inr ⟨p, List.mem_cons_of_mem _ hp, hd⟩
        · rintro (h | ⟨p, hp, hd⟩)
          · exact Or.inl (Or.inl h)
          · rcases List.mem_cons.mp hp with rfl | hp2
            · exact Or.inl (Or.inr hd)
            · exact Or.inr ⟨p, hp2, hd⟩

lemma buildCombined_nodup (db : DB) :
    ∀ (w : List (String × ℚ)) (acc : Option Frame),
      (∀ p ∈ w, ((get_indicator_df db p.1).map Obs.date).Nodup) →
      (rowsDates acc).Nodup →
      (rowsDates (buildCombined db w acc)).Nodup := by
  intro w
  induction w with
  | nil =>
    intro acc _ hacc
    simpa [buildCombined] using hacc
  | cons q rest ih =>
    intro acc hw hacc
    obtain ⟨sid, wt⟩ := q
    by_cases hE : get_indicator_df db sid = []
    · simp only [buildCombined, if_pos hE]
      exact ih acc (fun p hp => hw p (List.mem_cons_of_mem _ hp)) hacc
    · have hsid : ((adjusted_series db sid).map Prod.fst).Nodup := by
        rw [adjusted_series_map_fst]
        exact hw (sid, wt) (List.mem_cons_self _ _)
      cases acc with
      | none =>
        simp only [buildCombined, if_neg hE]
        apply ih _ (fun p hp => hw p (List.mem_cons_of_mem _ hp))
        simp only [rowsDates, List.map_map]
        have heq : (adjusted_series db sid).map
            (Prod.fst ∘ fun p => (p.1, [some p.2]))
            = (adjusted_series db sid).map Prod.fst :=
          List.map_congr_left (fun p _ => rfl)
        rw [heq]
        exact hsid
      | some fr =>
        simp only [buildCombined, if_neg hE]
        apply ih _ (fun p hp => hw p (List.mem_cons_of_mem _ hp))
        exact mergeOuter_fst_nodup fr sid _ hacc hsid

lemma buildCombined_length (db : DB) :
    ∀ (w : List (String × ℚ)) (acc : Option Frame),
      (rowsDates (buildCombined db w acc)).length
        ≤ (rowsDates acc).length
          + (w.map (fun p => (get_indicator_df db p.1).length)).sum := by
  intro w
  induction w with
  | nil =>
    intro acc
    simp [buildCombined]
  | cons q rest ih =>
    intro acc
    obtain ⟨sid, wt⟩ := q
    by_cases hE : get_indicator_df db sid = []
    · simp only [buildCombined, if_pos hE]
      have h1 := ih acc
      simp only [List.map_cons, List.sum_cons]
      omega
    · cases acc with
      | none =>
        simp only [buildCombined, if_neg hE]
        have h1 := ih (some
          { cols := [sid],
            rows := (adjusted_series db sid).map (fun p => (p.1, [some p.2])) })
        have h2 : (rowsDates (some
            { cols := [sid],
              rows := (adjusted_series db sid).map (fun p => (p.1, [some p.2])) })).length
            = (get_indicator_df db sid).length := by
          simp only [rowsDates, List.length_map]
          exact adjusted_series_length db sid
        have h3 : (rowsDates (Option.none : Option Frame)).length = 0 := rfl
        simp only [List.map_cons, List.sum_cons]
        omega
      | some fr =>
        simp only [buildCombined, if_neg hE]
        have h1 := ih (some (mergeOuter fr sid (adjusted_series db sid)))
        have h2 : (rowsDates (some (mergeOuter fr sid (adjusted_series db sid)))).length
            ≤ (rowsDates (some fr)).length + (get_indicator_df db sid).length := by
          simp only [rowsDates, List.length_map]
          have h4 := mergeOuter_rows_length fr sid (adjusted_series db sid)
          have h5 := adjusted_series_length db sid
          omega
        simp only [List.map_cons, List.sum_cons]
        omega

lemma ffillRows_map_fst :
    ∀ (rows : List (String × List (Option ℚ))) (carry : List (Option ℚ)),
      (ffillRows carry rows).map Prod.fst = rows.map Prod.fst := by
  intro rows
  induction rows with
  | nil =>
    intro carry
    rfl
  | cons r rest ih =>
    intro carry
    obtain ⟨d2, cs⟩ := r
    simp only [ffillRows, List.map_cons, ih]

/-- Weight map used by the C1 counterexample and witness. -/
def exW : List (String × ℚ) := [("A", 1), ("B", 1)]

/-- C1 counterexample: on the example store (series A at 2020-01 and 2020-03,
series B only at 2020-02), the code forward-fills in merge row order — the
row for 2020-02 is appended after 2020-03, so series A's column at 2020-02
receives the 2020-03 value 3 (a chronologically later value) and series B's
column at 2020-03 receives 0 although 2020-03 is after B's first observation.
The result differs from the date-order forward fill the claim describes. -/
theorem c1_counterexample :
    get_composite_df exDB exW = [("2020-01", 1), ("2020-02", 4), ("2020-03", 3)]
    ∧ specCompositeDf exDB exW = [("2020-01", 1), ("2020-02", 2), ("2020-03", 4)]
    ∧ get_composite_df exDB exW ≠ specCompositeDf exDB exW := by
  refine ⟨by decide, by decide, by decide⟩

/-- C1 as amended: `get_composite_df` does build the outer-join union of
dates over all non-empty weighted series and returns the table sorted by
date strictly ascending (given per-series date uniqueness and a window at
least the total observation count), but forward-fill and zero-fill are
applied in the row order produced by the successive outer merges — existing
rows first, previously-unseen dates appended — before the final sort, so a
missing cell is filled with the most recent prior value in merge order (not
date order), which can be a chronologically later value. -/
theorem c1_amended :
    ∀ (db : DB) (w : List (String × ℚ)),
      (∀ p ∈ w, ((get_indicator_df db p.1).map Obs.date).Nodup) →
      ((w.map (fun p => (get_indicator_df db p.1).length)).sum : ℤ)
        ≤ get_months_back db →
      List.Pairwise (fun a b => dateLt a b = true)
        ((get_composite_df db w).map Prod.fst)
      ∧ ∀ d : String,
          d ∈ (get_composite_df db w).map Prod.fst
            ↔ ∃ p ∈ w, d ∈ (get_indicator_df db p.1).map Obs.date := by
  intro db w hnd hwin
  by_cases hw0 : w = []
  · subst hw0
    simp [get_composite_df]
  · cases hbc : buildCombined db w none with
    | none =>
      have hres : get_composite_df db w = [] := by
        unfold get_composite_df
        rw [if_neg hw0, hbc]
      rw [hres]
      constructor
      · exact List.Pairwise.nil
      · intro d
        simp only [List.map_nil, List.not_mem_nil, false_iff]
        rintro ⟨p, hp, hd⟩
        have h2 := (buildCombined_mem db w none d).mpr (Or.inr ⟨p, hp, hd⟩)
        rw [hbc] at h2
        simp [rowsDates] at h2
    | some f =>
      set filled := ffillRows (List.replicate f.cols.length none) f.rows with hfilled
      set zeroed := filled.map (fun r => (r.1, r.2.map (fun c => c.getD 0))) with hzeroed
      set withTotal := zeroed.map (fun r => (r.1, rowTotal w f.cols r.2)) with hwt
      set sorted :=
        List.insertionSort (fun a b : String × ℚ => dateLe a.1 b.1 = true) withTotal
        with hsorted
      have hfst : withTotal.map Prod.fst = f.rows.map Prod.fst := by
        calc withTotal.map Prod.fst
            = filled.map Prod.fst := by
              rw [hwt, hzeroed]
              simp only [List.map_map]
              exact List.map_congr_left (fun r _ => rfl)
          _ = f.rows.map Prod.fst := by
              rw [hfilled]
              exact ffillRows_map_fst f.rows _
      have hperm : List.Perm (sorted.map Prod.fst) (withTotal.map Prod.fst) :=
        List.Perm.map Prod.fst (List.perm_insertionSort _ withTotal)
      have hlen : ((sorted.length : ℤ) ≤ get_months_back db) := by
        have h1 : sorted.length = withTotal.length :=
          (List.perm_insertionSort _ withTotal).length_eq
        have h2 : withTotal.length = f.rows.length := by
          rw [hwt, hzeroed]
          simp only [List.length_map]
          rw [hfilled]
          have h6 := congrArg List.length
            (ffillRows_map_fst f.rows (List.replicate f.cols.length none))
          simpa using h6
        have h3 : f.rows.length = (rowsDates (some f)).length := by
          simp [rowsDates]
        have h4 := buildCombined_length db w none
        rw [hbc] at h4
        have h5 : (rowsDates (Option.none : Option Frame)).length = 0 := rfl
        omega
      have hres : get_composite_df db w = sorted := by
        unfold get_composite_df
        rw [if_neg hw0, hbc]
        show (if ((sorted.length : ℤ) > get_months_back db)
            then pySliceFrom sorted (-(get_months_back db)) else sorted) = sorted
        rw [if_neg (not_lt.mpr hlen)]
      rw [hres]
      have hnodupF : (f.rows.map Prod.fst).Nodup := by
        have h6 := buildCombined_nodup db w none hnd (by simp [rowsDates])
        rw [hbc] at h6
        exact h6
      have hnodupS : (sorted.map Prod.fst).Nodup := by
        refine (hperm.nodup_iff).mpr ?_
        rw [hfst]
        exact hnodupF
      constructor
      · have hsorted2 :
            List.Pairwise (fun a b : String × ℚ => dateLe a.1 b.1 = true) sorted :=
          List.sorted_insertionSort _ withTotal
        have hps :
            List.Pairwise (fun a b : String => dateLe a b = true)
              (sorted.map Prod.fst) := (List.pairwise_map).mpr hsorted2
        exact List.Pairwise.imp (fun h => dateLt_of_le_of_ne h.1 h.2)
          (hps.and hnodupS)
      · intro d
        have hmem : d ∈ sorted.map Prod.fst ↔ d ∈ f.rows.map Prod.fst := by
          rw [hperm.mem_iff, hfst]
        rw [hmem]
        have h7 := buildCombined_mem db w none d
        rw [hbc] at h7
        simp only [rowsDates] at h7
        rw [h7]
        simp

/-- C1 witness for the amended claim: on the example store the composite
dates are the sorted union of the two series' dates. -/
theorem c1_amended_witness :
    ((∀ p ∈ exW, ((get_indicator_df exDB p.1).map Obs.date).Nodup)
      ∧ ((exW.map (fun p => (get_indicator_df exDB p.1).length)).sum : ℤ)
          ≤ get_months_back exDB)
    ∧ (List.Pairwise (fun a b => dateLt a b = true)
        ((get_composite_df exDB exW).map Prod.fst)
      ∧ ∀ d : String,
          d ∈ (get_composite_df exDB exW).map Prod.fst
            ↔ ∃ p ∈ exW, d ∈ (get_indicator_df exDB p.1).map Obs.date) :=
  ⟨⟨by decide, by decide⟩, c1_amended exDB exW (by decide) (by decide)⟩
